import Mathlib

/-!
Verification of the VanillAI 2D raster rendering core: the PPM pixel buffer
(src/visualization/ppm/ppm.py), the coordinate mapping and plot composition
(src/visualization/plot/plot.py, scatter.py, line.py), and the Bresenham line
rasterizer (line.py, Line._draw_line).

The Python code is shallowly embedded: the pixel grid is a list of rows of RGB
triples over unbounded integers (Python ints), numeric data series are modelled
as rationals, Python int(float) truncation toward zero is Int.tdiv on a
rational's numerator and denominator, and Python integer floor division is
Int.fdiv.  Stateful methods become functions from the image to the image, and
the methods that can raise return an error marker together with the image as it
stands when the exception propagates.
-/

/-- An RGB color as stored by the Python code: a tuple of (unbounded) integers. -/
def Color : Type := Int × Int × Int

instance : DecidableEq Color := by unfold Color; infer_instance

/-- Fuelled digit expansion; enough fuel always exists since n / 10 < n. -/
def natCharsAux : Nat → Nat → List Char
  | 0, _ => []
  | fuel + 1, n =>
      if n < 10 then [Char.ofNat (48 + n)]
      else natCharsAux fuel (n / 10) ++ [Char.ofNat (48 + n % 10)]

/-- Decimal digits of a natural number, most significant first (the text Python
produces for a nonnegative int in an f-string). -/
def natChars (n : Nat) : List Char := natCharsAux (n + 1) n

lemma natCharsAux_fuel : ∀ n fuel fuel' : Nat, n < fuel → n < fuel' →
    natCharsAux fuel n = natCharsAux fuel' n := by
  intro n
  induction n using Nat.strong_induction_on with
  | _ n ih =>
      intro fuel fuel' hf hf'
      cases fuel with
      | zero => omega
      | succ f =>
          cases fuel' with
          | zero => omega
          | succ f' =>
              simp only [natCharsAux]
              by_cases h : n < 10
              · rw [if_pos h, if_pos h]
              · rw [if_neg h, if_neg h,
                  ih (n / 10) (by omega) f f' (by omega) (by omega)]

/-- The recursion natChars satisfies, with the fuel hidden. -/
lemma natChars_eq (n : Nat) : natChars n =
    if n < 10 then [Char.ofNat (48 + n)]
    else natChars (n / 10) ++ [Char.ofNat (48 + n % 10)] := by
  have haux : natCharsAux (n + 1) n =
      if n < 10 then [Char.ofNat (48 + n)]
      else natCharsAux n (n / 10) ++ [Char.ofNat (48 + n % 10)] := rfl
  unfold natChars
  rw [haux]
  by_cases h : n < 10
  · rw [if_pos h, if_pos h]
  · rw [if_neg h, if_neg h,
      natCharsAux_fuel (n / 10) n (n / 10 + 1) (by omega) (by omega)]

/-- Decimal text of a Python int, with a leading minus sign when negative. -/
def intChars (n : Int) : List Char :=
  if n < 0 then '-' :: natChars (-n).toNat else natChars n.toNat

/-- The list of integers of Python's range(a, b). -/
def rangeInt (a b : Int) : List Int :=
  (List.range (b - a).toNat).map (fun (i : Nat) => a + (i : Int))

/-- Truncation of a rational toward zero: the value of Python's int() applied
to the corresponding float division result. -/
def ratTrunc (q : ℚ) : ℤ := q.num.tdiv q.den

/-- The Python idiom (max - min) or 1: a zero range falls back to 1. -/
def rangeOr1 (r : ℚ) : ℚ := if r = 0 then 1 else r

/-- The scaling step px = int((v - lo) / r * e) shared by the point, line and
tick coordinate computations. -/
def scaleTrunc (v lo r : ℚ) (e : Int) : Int := ratTrunc ((v - lo) / r * (e : ℚ))

/-- Python min over a nonempty list (0 for the empty list, which the code
never reaches because it raises first). -/
def listMin (l : List ℚ) : ℚ :=
  match l with
  | [] => 0
  | a :: t => t.foldl min a

/-- Python max over a nonempty list (0 for the empty list, which the code
never reaches because it raises first). -/
def listMax (l : List ℚ) : ℚ :=
  match l with
  | [] => 0
  | a :: t => t.foldl max a

/-- The pixel buffer of ppm.py: width, height, background and the row-major
grid built by the PPMImage constructor. -/
structure PPMImage where
  width : Int
  height : Int
  bg_color : Color
  pixels : List (List Color)
deriving DecidableEq

/-- PPMImage.__init__: a height-by-width grid pre-filled with the background. -/
def mkPPM (width height : Int) (background : Color) : PPMImage :=
  ⟨width, height, background,
    List.replicate height.toNat (List.replicate width.toNat background)⟩

/-- PPMImage.set_pixel: write color at (x, y) iff 0 <= x < width and
0 <= y < height, otherwise do nothing. -/
def PPMImage.set_pixel (img : PPMImage) (x y : Int) (color : Color) : PPMImage :=
  if 0 ≤ x ∧ x < img.width ∧ 0 ≤ y ∧ y < img.height then
    { img with
      pixels := img.pixels.set y.toNat
        (((img.pixels.get? y.toNat).getD []).set x.toNat color) }
  else img

/-- PPMImage.draw_dot: for dx in range(-radius, radius+1), for dy in the same
range, set_pixel(x+dx, y+dy, color). -/
def PPMImage.draw_dot (img : PPMImage) (x y : Int) (radius : Int) (color : Color) :
    PPMImage :=
  (rangeInt (-radius) (radius + 1)).foldl
    (fun im dx =>
      (rangeInt (-radius) (radius + 1)).foldl
        (fun im2 dy => im2.set_pixel (x + dx) (y + dy) color) im)
    img

/-- Text written for one pixel by PPMImage.save: the three channel values each
followed by a single space. -/
def pixelChars (c : Color) : List Char :=
  intChars c.1 ++ [' '] ++ intChars c.2.1 ++ [' '] ++ intChars c.2.2 ++ [' ']

/-- PPMImage.save, modelled as the full character stream written to the file:
the P3 line, the width-height line, the 255 line, then per row every pixel's
channel text followed by the row's newline. -/
def PPMImage.saveChars (img : PPMImage) : List Char :=
  img.pixels.foldl
    (fun acc row => (row.foldl (fun a c => a ++ pixelChars c) acc) ++ ['\n'])
    (['P', '3', '\n'] ++ intChars img.width ++ [' '] ++ intChars img.height
      ++ ['\n', '2', '5', '5', '\n'])

/-- A pixel read: the stored color at nonnegative coordinates (x, y), as far as
the grid extends. -/
def PPMImage.getPixel (img : PPMImage) (x y : Int) : Option Color :=
  if 0 ≤ x ∧ 0 ≤ y then (img.pixels.get? y.toNat).bind (fun row => row.get? x.toNat)
  else none

/-- The grid really has the dimensions the width and height fields announce,
as the constructor guarantees. -/
def PPMImage.WF (img : PPMImage) : Prop :=
  img.pixels.length = img.height.toNat ∧
    ∀ row ∈ img.pixels, row.length = img.width.toNat

instance (img : PPMImage) : Decidable img.WF := by
  unfold PPMImage.WF; infer_instance

/-- A recorded write: a target position and the color to store there. -/
def PixWrite : Type := (Int × Int) × Color

/-- Replay a list of recorded writes through set_pixel. -/
def applyWrites (img : PPMImage) (l : List PixWrite) : PPMImage :=
  l.foldl (fun im w => im.set_pixel w.1.1 w.1.2 w.2) img

/-- A canvas transformer is oblivious when it performs a fixed list of pixel
writes that does not depend on the canvas contents.  Every drawing routine of
the renderer is of this shape. -/
def Oblivious (f : PPMImage → PPMImage) : Prop :=
  ∃ l : List PixWrite, ∀ img, f img = applyWrites img l

lemma set_pixel_width (img : PPMImage) (x y : Int) (c : Color) :
    (img.set_pixel x y c).width = img.width := by
  unfold PPMImage.set_pixel; split <;> rfl

lemma set_pixel_height (img : PPMImage) (x y : Int) (c : Color) :
    (img.set_pixel x y c).height = img.height := by
  unfold PPMImage.set_pixel; split <;> rfl

lemma set_pixel_bg (img : PPMImage) (x y : Int) (c : Color) :
    (img.set_pixel x y c).bg_color = img.bg_color := by
  unfold PPMImage.set_pixel; split <;> rfl

lemma set_pixel_wf (img : PPMImage) (hwf : img.WF) (x y : Int) (c : Color) :
    (img.set_pixel x y c).WF := by
  obtain ⟨hlen, hrows⟩ := hwf
  unfold PPMImage.set_pixel
  split
  · rename_i hb
    refine ⟨?_, ?_⟩
    · simpa [set_pixel_height, List.length_set] using hlen
    · intro row hrow
      rcases List.mem_or_eq_of_mem_set hrow with h | h
      · exact hrows row h
      · subst h
        have hy : y.toNat < img.pixels.length := by
          rw [hlen]; omega
        have : img.pixels.get? y.toNat = some (img.pixels[y.toNat]) := by
          simpa [List.get?_eq_getElem?] using List.getElem?_eq_getElem hy
        rw [this]
        simp only [Option.getD_some, List.length_set]
        exact hrows _ (List.getElem_mem hy)
  · exact ⟨hlen, hrows⟩

lemma getPixel_of_neg (img : PPMImage) (i j : Int) (h : ¬(0 ≤ i ∧ 0 ≤ j)) :
    img.getPixel i j = none := by
  unfold PPMImage.getPixel; rw [if_neg h]

lemma getPixel_of_nonneg (img : PPMImage) (i j : Int) (h : 0 ≤ i ∧ 0 ≤ j) :
    img.getPixel i j = (img.pixels.get? j.toNat).bind (fun row => row.get? i.toNat) := by
  unfold PPMImage.getPixel; rw [if_pos h]

/-- Full characterization of a read after set_pixel: an in-bounds write is seen
exactly at its own position, everything else is untouched. -/
lemma getPixel_set_pixel (img : PPMImage) (hwf : img.WF) (x y : Int) (c : Color)
    (i j : Int) :
    (img.set_pixel x y c).getPixel i j =
      if i = x ∧ j = y ∧ 0 ≤ x ∧ x < img.width ∧ 0 ≤ y ∧ y < img.height then some c
      else img.getPixel i j := by
  obtain ⟨hlen, hrows⟩ := hwf
  by_cases hb : 0 ≤ x ∧ x < img.width ∧ 0 ≤ y ∧ y < img.height
  · obtain ⟨hx0, hxw, hy0, hyh⟩ := hb
    have hy : y.toNat < img.pixels.length := by rw [hlen]; omega
    have hrowsome : img.pixels.get? y.toNat = some (img.pixels[y.toNat]) := by
      simp [List.get?_eq_getElem?, List.getElem?_eq_getElem hy]
    have hrowlen : (img.pixels[y.toNat]).length = img.width.toNat :=
      hrows _ (List.getElem_mem hy)
    have hset : img.set_pixel x y c =
        { img with pixels :=
            img.pixels.set y.toNat ((img.pixels[y.toNat]).set x.toNat c) } := by
      unfold PPMImage.set_pixel
      rw [if_pos ⟨hx0, hxw, hy0, hyh⟩, hrowsome]
      rfl
    rw [hset]
    by_cases hij : 0 ≤ i ∧ 0 ≤ j
    · obtain ⟨hi0, hj0⟩ := hij
      rw [getPixel_of_nonneg _ i j ⟨hi0, hj0⟩, getPixel_of_nonneg img i j ⟨hi0, hj0⟩]
      simp only [List.get?_eq_getElem?]
      rw [List.getElem?_set]
      by_cases hj : j = y
      · rw [if_pos (by omega), if_pos hy]
        simp only [Option.some_bind]
        rw [List.getElem?_set]
        by_cases hi : i = x
        · rw [if_pos (by omega), if_pos (by omega),
            if_pos ⟨hi, hj, hx0, hxw, hy0, hyh⟩]
        · rw [if_neg (by omega), if_neg (by intro h; exact hi h.1)]
          have : img.pixels[j.toNat]? = some (img.pixels[y.toNat]) := by
            rw [hj]; exact List.getElem?_eq_getElem hy
          rw [this]; simp
      · rw [if_neg (by omega), if_neg (by intro h; exact hj h.2.1)]
    · rw [getPixel_of_neg _ i j hij, getPixel_of_neg img i j hij,
        if_neg (by intro h; exact hij ⟨h.1 ▸ hx0, h.2.1 ▸ hy0⟩)]
  · have hsame : img.set_pixel x y c = img := by
      unfold PPMImage.set_pixel; rw [if_neg hb]
    rw [hsame, if_neg (by intro h; exact hb ⟨h.2.2.1, h.2.2.2.1, h.2.2.2.2.1, h.2.2.2.2.2⟩)]

lemma applyWrites_append (img : PPMImage) (l1 l2 : List PixWrite) :
    applyWrites img (l1 ++ l2) = applyWrites (applyWrites img l1) l2 :=
  List.foldl_append _ _ _ _

lemma applyWrites_width (img : PPMImage) (l : List PixWrite) :
    (applyWrites img l).width = img.width := by
  induction l generalizing img with
  | nil => rfl
  | cons w t ih =>
      rw [show applyWrites img (w :: t) = applyWrites (img.set_pixel w.1.1 w.1.2 w.2) t
        from rfl, ih, set_pixel_width]

lemma applyWrites_height (img : PPMImage) (l : List PixWrite) :
    (applyWrites img l).height = img.height := by
  induction l generalizing img with
  | nil => rfl
  | cons w t ih =>
      rw [show applyWrites img (w :: t) = applyWrites (img.set_pixel w.1.1 w.1.2 w.2) t
        from rfl, ih, set_pixel_height]

lemma applyWrites_bg (img : PPMImage) (l : List PixWrite) :
    (applyWrites img l).bg_color = img.bg_color := by
  induction l generalizing img with
  | nil => rfl
  | cons w t ih =>
      rw [show applyWrites img (w :: t) = applyWrites (img.set_pixel w.1.1 w.1.2 w.2) t
        from rfl, ih, set_pixel_bg]

lemma applyWrites_wf (img : PPMImage) (hwf : img.WF) (l : List PixWrite) :
    (applyWrites img l).WF := by
  induction l generalizing img with
  | nil => exact hwf
  | cons w t ih =>
      rw [applyWrites] at *; simp only [List.foldl_cons]
      exact ih _ (set_pixel_wf img hwf _ _ _)

/-- Does a recorded write land on position (i, j) inside a W-by-H canvas? -/
def hitB (W H i j : Int) (w : PixWrite) : Bool :=
  decide (w.1.1 = i ∧ w.1.2 = j ∧ 0 ≤ w.1.1 ∧ w.1.1 < W ∧ 0 ≤ w.1.2 ∧ w.1.2 < H)

/-- Replaying a list of writes leaves, at each position, the last in-bounds
write aimed there, and the original pixel where no write lands. -/
lemma getPixel_applyWrites (img : PPMImage) (hwf : img.WF) (l : List PixWrite)
    (i j : Int) :
    (applyWrites img l).getPixel i j =
      match l.reverse.find? (hitB img.width img.height i j) with
      | some w => some w.2
      | none => img.getPixel i j := by
  induction l using List.reverseRecOn with
  | nil => rfl
  | append_singleton t w ih =>
      rw [applyWrites_append]
      have hstep : applyWrites (applyWrites img t) [w] =
          (applyWrites img t).set_pixel w.1.1 w.1.2 w.2 := rfl
      rw [hstep, getPixel_set_pixel _ (applyWrites_wf img hwf t) _ _ _ _ _,
        applyWrites_width, applyWrites_height, List.reverse_append]
      simp only [List.reverse_singleton, List.singleton_append, List.find?_cons]
      by_cases hhit : hitB img.width img.height i j w = true
      · rw [hhit]
        unfold hitB at hhit
        rw [decide_eq_true_iff] at hhit
        obtain ⟨h1, h2, h3, h4, h5, h6⟩ := hhit
        rw [if_pos ⟨h1.symm, h2.symm, h3, h4, h5, h6⟩]
      · rw [Bool.not_eq_true] at hhit
        rw [hhit]
        unfold hitB at hhit
        rw [decide_eq_false_iff_not] at hhit
        rw [if_neg (by intro h; exact hhit ⟨h.1.symm, h.2.1.symm, h.2.2⟩), ih]

/-- Two well formed images with the same dimensions, background and pixel reads
are equal. -/
lemma ppm_ext (a b : PPMImage) (hw : a.width = b.width) (hh : a.height = b.height)
    (hbg : a.bg_color = b.bg_color) (hwa : a.WF) (hwb : b.WF)
    (hpix : ∀ i j : Int, a.getPixel i j = b.getPixel i j) : a = b := by
  obtain ⟨ha1, ha2⟩ := hwa
  obtain ⟨hb1, hb2⟩ := hwb
  have hplen : a.pixels.length = b.pixels.length := by rw [ha1, hb1, hh]
  have hpx : a.pixels = b.pixels := by
    apply List.ext_get?
    intro n
    by_cases hn : n < a.pixels.length
    · have hn' : n < b.pixels.length := hplen ▸ hn
      rw [List.get?_eq_getElem?, List.get?_eq_getElem?,
        List.getElem?_eq_getElem hn, List.getElem?_eq_getElem hn']
      have hrow : ∀ m : Nat, (a.pixels[n]).get? m = (b.pixels[n]).get? m := by
        intro m
        have h := hpix (m : Int) (n : Int)
        rw [getPixel_of_nonneg _ _ _ ⟨Int.natCast_nonneg m, Int.natCast_nonneg n⟩,
          getPixel_of_nonneg _ _ _ ⟨Int.natCast_nonneg m, Int.natCast_nonneg n⟩] at h
        simp only [Int.toNat_natCast, List.get?_eq_getElem?,
          List.getElem?_eq_getElem hn, List.getElem?_eq_getElem hn',
          Option.some_bind] at h
        simpa [List.get?_eq_getElem?] using h
      rw [List.ext_get? hrow]
    · rw [List.get?_eq_getElem?, List.get?_eq_getElem?,
        List.getElem?_eq_none (by omega), List.getElem?_eq_none (by omega)]
  rcases a with ⟨aw, ah, abg, ap⟩
  rcases b with ⟨bw, bh, bbg, bp⟩
  simp only at hw hh hbg hpx
  rw [hw, hh, hbg, hpx]

/-- Replaying the same write list a second time changes nothing: each position
ends at the same last write either way. -/
lemma applyWrites_twice (img : PPMImage) (hwf : img.WF) (l : List PixWrite) :
    applyWrites (applyWrites img l) l = applyWrites img l := by
  have hwf1 : (applyWrites img l).WF := applyWrites_wf img hwf l
  apply ppm_ext _ _ (applyWrites_width _ _) (applyWrites_height _ _)
    (applyWrites_bg _ _) (applyWrites_wf _ hwf1 _) hwf1
  intro i j
  rw [getPixel_applyWrites _ hwf1, applyWrites_width, applyWrites_height,
    getPixel_applyWrites _ hwf]
  cases hf : l.reverse.find? (hitB img.width img.height i j) <;> rfl

lemma obliv_id : Oblivious (fun img => img) := ⟨[], fun _ => rfl⟩

lemma obliv_set_pixel (x y : Int) (c : Color) :
    Oblivious (fun img => img.set_pixel x y c) := ⟨[((x, y), c)], fun _ => rfl⟩

lemma obliv_comp {f g : PPMImage → PPMImage} (hf : Oblivious f) (hg : Oblivious g) :
    Oblivious (fun img => g (f img)) := by
  obtain ⟨lf, hlf⟩ := hf
  obtain ⟨lg, hlg⟩ := hg
  refine ⟨lf ++ lg, fun img => ?_⟩
  show g (f img) = _
  rw [hlf, hlg, applyWrites_append]

lemma obliv_foldl {α : Type} (l : List α) (step : α → PPMImage → PPMImage)
    (h : ∀ a, Oblivious (step a)) :
    Oblivious (fun img => l.foldl (fun im a => step a im) img) := by
  induction l with
  | nil => exact obliv_id
  | cons a t ih => exact obliv_comp (h a) ih

lemma obliv_ite (P : Prop) [Decidable P] {f g : PPMImage → PPMImage}
    (hf : Oblivious f) (hg : Oblivious g) :
    Oblivious (fun img => if P then f img else g img) := by
  by_cases hp : P
  · simp only [if_pos hp]; exact hf
  · simp only [if_neg hp]; exact hg

/-- An oblivious transformer is idempotent on well formed canvases. -/
lemma obliv_idem {f : PPMImage → PPMImage} (hf : Oblivious f) (img : PPMImage)
    (hwf : img.WF) : f (f img) = f img := by
  obtain ⟨l, hl⟩ := hf
  rw [hl img, hl]
  exact applyWrites_twice img hwf l

/-- One fuelled run of the while-loop of Line._draw_line: visit (x0, y0), stop
when the end point is reached, otherwise advance x and/or y exactly as the two
independent error tests of the Python loop do.  Running out of fuel yields
none; the totality lemma below shows the initial fuel chosen in bresenham never
runs out. -/
def bresAux : Nat → Int → Int → Int → Int → Int → Int → Int → Int → Int →
    Option (List (Int × Int))
  | 0, _, _, _, _, _, _, _, _, _ => none
  | fuel + 1, x0, y0, x1, y1, sx, sy, dx, dy, err =>
    if x0 = x1 ∧ y0 = y1 then some [(x0, y0)]
    else
      let e2 := 2 * err
      let err1 := if dy ≤ e2 then err + dy else err
      let x0n := if dy ≤ e2 then x0 + sx else x0
      let err2 := if e2 ≤ dx then err1 + dx else err1
      let y0n := if e2 ≤ dx then y0 + sy else y0
      (bresAux fuel x0n y0n x1 y1 sx sy dx dy err2).map (fun l => (x0, y0) :: l)

/-- Line._draw_line's Bresenham setup followed by the loop: dx = |x1-x0|,
dy = -|y1-y0|, sx/sy the step directions, err = dx + dy. -/
def bresenham (x0 y0 x1 y1 : Int) : Option (List (Int × Int)) :=
  let dx := |x1 - x0|
  let dy := -|y1 - y0|
  let sx : Int := if x0 < x1 then 1 else -1
  let sy : Int := if y0 < y1 then 1 else -1
  bresAux (dx - dy + 1).toNat x0 y0 x1 y1 sx sy dx dy (dx + dy)

/-- Invariant-carrying totality of the Bresenham loop: with the remaining
distances bounded by dx and -dy and the error term in its loop-invariant
shape, enough fuel always reaches the end point; the produced pixel list
starts at the current point and contains the end point. -/
lemma bresAux_total (fuel : Nat) :
    ∀ x0 y0 x1 y1 sx sy dx dy err : Int,
      sx = 1 ∨ sx = -1 → sy = 1 ∨ sy = -1 →
      0 ≤ sx * (x1 - x0) → sx * (x1 - x0) ≤ dx →
      0 ≤ sy * (y1 - y0) → sy * (y1 - y0) ≤ -dy →
      err = dx + dy - dx * (sy * (y1 - y0)) - dy * (sx * (x1 - x0)) →
      (sx * (x1 - x0) + sy * (y1 - y0)).toNat < fuel →
      ∃ l, bresAux fuel x0 y0 x1 y1 sx sy dx dy err = some l ∧
        l.head? = some (x0, y0) ∧ l.getLast? = some (x1, y1) ∧ (x1, y1) ∈ l := by
  induction fuel with
  | zero =>
      intro x0 y0 x1 y1 sx sy dx dy err _ _ _ _ _ _ _ hfuel
      exact absurd hfuel (by omega)
  | succ fuel ih =>
      intro x0 y0 x1 y1 sx sy dx dy err hsx hsy hu0 hud hv0 hvd herr hfuel
      by_cases hend : x0 = x1 ∧ y0 = y1
      · refine ⟨[(x0, y0)], ?_, rfl, ?_, ?_⟩
        · simp only [bresAux, if_pos hend]
        · rw [hend.1, hend.2]
          rfl
        · rw [hend.1, hend.2]
          exact List.mem_singleton.mpr rfl
      · set u := sx * (x1 - x0) with hu
        set v := sy * (y1 - y0) with hv
        have hdx0 : (0 : ℤ) ≤ dx := le_trans hu0 hud
        have hdy0 : dy ≤ 0 := by linarith
        have hsx2 : sx * sx = 1 := by rcases hsx with rfl | rfl <;> ring
        have hsy2 : sy * sy = 1 := by rcases hsy with rfl | rfl <;> ring
        have hxiff : u = 0 → x0 = x1 := by
          rcases hsx with rfl | rfl <;> (intro h; rw [hu] at h; omega)
        have hyiff : v = 0 → y0 = y1 := by
          rcases hsy with rfl | rfl <;> (intro h; rw [hv] at h; omega)
        have hnotboth : ¬(u = 0 ∧ v = 0) := fun ⟨h1, h2⟩ => hend ⟨hxiff h1, hyiff h2⟩
        have hstepx : sx * (x1 - (x0 + sx)) = u - 1 := by
          rw [hu]; linear_combination -hsx2
        have hstepy : sy * (y1 - (y0 + sy)) = v - 1 := by
          rw [hv]; linear_combination -hsy2
        have hu1 : dy ≤ 2 * err → 1 ≤ u := by
          intro hX
          by_contra hc
          have hu0' : u = 0 := by omega
          have hv1' : 1 ≤ v := by
            rcases (by omega : v = 0 ∨ 1 ≤ v) with h | h
            · exact absurd ⟨hu0', h⟩ hnotboth
            · exact h
          have hdyu : dy * u = 0 := by rw [hu0']; ring
          have hdxv : dx ≤ dx * v := by
            nlinarith [mul_nonneg hdx0 (by omega : (0 : ℤ) ≤ v - 1)]
          linarith [herr, hdyu, hdxv, hvd, hv1']
        have hv1 : 2 * err ≤ dx → 1 ≤ v := by
          intro hY
          by_contra hc
          have hv0' : v = 0 := by omega
          have hu1' : 1 ≤ u := by
            rcases (by omega : u = 0 ∨ 1 ≤ u) with h | h
            · exact absurd ⟨h, hv0'⟩ hnotboth
            · exact h
          have hdxv : dx * v = 0 := by rw [hv0']; ring
          have hdyu : dy * u ≤ dy := by
            nlinarith [mul_nonneg (by omega : (0 : ℤ) ≤ -dy) (by omega : (0 : ℤ) ≤ u - 1)]
          linarith [herr, hdxv, hdyu, hud, hu1']
        by_cases hX : dy ≤ 2 * err
        · by_cases hY : 2 * err ≤ dx
          · -- both coordinates advance
            obtain ⟨l, hl, hhead, hlast, hmem⟩ :=
              ih (x0 + sx) (y0 + sy) x1 y1 sx sy dx dy (err + dy + dx) hsx hsy
                (by rw [hstepx]; have := hu1 hX; omega)
                (by rw [hstepx]; omega)
                (by rw [hstepy]; have := hv1 hY; omega)
                (by rw [hstepy]; omega)
                (by rw [hstepx, hstepy, herr]; ring)
                (by rw [hstepx, hstepy]
                    have h1 := hu1 hX
                    have h2 := hv1 hY
                    omega)
            refine ⟨(x0, y0) :: l, ?_, rfl, ?_, List.mem_cons_of_mem _ hmem⟩
            · simp only [bresAux]
              rw [if_neg hend]
              simp only [if_pos hX, if_pos hY]
              rw [hl]
              rfl
            · cases l with
              | nil => simp at hhead
              | cons c t =>
                  rw [List.getLast?_cons_cons]
                  exact hlast
          · -- only x advances
            obtain ⟨l, hl, hhead, hlast, hmem⟩ :=
              ih (x0 + sx) y0 x1 y1 sx sy dx dy (err + dy) hsx hsy
                (by rw [hstepx]; have := hu1 hX; omega)
                (by rw [hstepx]; omega)
                hv0 hvd
                (by rw [hstepx, herr]; ring)
                (by rw [hstepx]
                    have h1 := hu1 hX
                    omega)
            refine ⟨(x0, y0) :: l, ?_, rfl, ?_, List.mem_cons_of_mem _ hmem⟩
            · simp only [bresAux]
              rw [if_neg hend]
              simp only [if_pos hX, if_neg hY]
              rw [hl]
              rfl
            · cases l with
              | nil => simp at hhead
              | cons c t =>
                  rw [List.getLast?_cons_cons]
                  exact hlast
        · -- only y advances (the x test failing forces the y test to pass)
          have hY : 2 * err ≤ dx := by omega
          obtain ⟨l, hl, hhead, hlast, hmem⟩ :=
            ih x0 (y0 + sy) x1 y1 sx sy dx dy (err + dx) hsx hsy
              hu0 hud
              (by rw [hstepy]; have := hv1 hY; omega)
              (by rw [hstepy]; omega)
              (by rw [hstepy, herr]; ring)
              (by rw [hstepy]
                  have h2 := hv1 hY
                  omega)
          refine ⟨(x0, y0) :: l, ?_, rfl, ?_, List.mem_cons_of_mem _ hmem⟩
          · simp only [bresAux]
            rw [if_neg hend]
            simp only [if_neg hX, if_pos hY]
            rw [hl]
            rfl
          · cases l with
            | nil => simp at hhead
            | cons c t =>
                rw [List.getLast?_cons_cons]
                exact hlast

/-- The fuel bresenham passes to the loop always suffices: the loop terminates
at the end point, having visited the start first and the end last. -/
lemma bresenham_total (x0 y0 x1 y1 : Int) :
    ∃ l, bresenham x0 y0 x1 y1 = some l ∧ l.head? = some (x0, y0) ∧
      l.getLast? = some (x1, y1) ∧ (x1, y1) ∈ l := by
  have ha : (0 : ℤ) ≤ |x1 - x0| := abs_nonneg _
  have hb : (0 : ℤ) ≤ |y1 - y0| := abs_nonneg _
  have habsx : (if x0 < x1 then (1 : ℤ) else -1) * (x1 - x0) = |x1 - x0| := by
    split
    · rw [abs_of_nonneg (by omega)]; ring
    · rw [abs_of_nonpos (by omega)]; ring
  have habsy : (if y0 < y1 then (1 : ℤ) else -1) * (y1 - y0) = |y1 - y0| := by
    split
    · rw [abs_of_nonneg (by omega)]; ring
    · rw [abs_of_nonpos (by omega)]; ring
  obtain ⟨l, hl, hh, hlast, hm⟩ :=
    bresAux_total (|x1 - x0| - -|y1 - y0| + 1).toNat x0 y0 x1 y1
      (if x0 < x1 then 1 else -1) (if y0 < y1 then 1 else -1)
      (|x1 - x0|) (-|y1 - y0|) (|x1 - x0| + -|y1 - y0|)
      (by split <;> simp) (by split <;> simp)
      (by rw [habsx]; exact ha) (by rw [habsx])
      (by rw [habsy]; exact hb) (by rw [habsy, neg_neg])
      (by rw [habsx, habsy]; ring)
      (by rw [habsx, habsy]; omega)
  refine ⟨l, ?_, hh, hlast, hm⟩
  simp only [bresenham]
  exact hl

/-- Modelled from the spec: the FontEngine used by the composers lives in
src/visualization/plot/font.py, which is not present under src (only its
callers and tests are).  Section 4.4 of the spec fixes a 5-wide by 7-tall
bitmap per supported character (A-Z, 0-9, the minus sign and space) and says
unsupported characters draw no ink.  The bitmap contents themselves are not
specified and no claim depends on them; a full 5x7 block stands in for every
supported glyph. -/
def glyphTable (ch : Char) : Option (List (List Bool)) :=
  if ('A' ≤ ch ∧ ch ≤ 'Z') ∨ ('0' ≤ ch ∧ ch ≤ '9') ∨ ch = '-' ∨ ch = ' ' then
    some (List.replicate 7 (List.replicate 5 true))
  else none

/-- Modelled from the spec: one scale-by-scale filled block stamped for a set
glyph bit, written through set_pixel like every other drawing primitive. -/
def stampBlock (img : PPMImage) (px py scale : Int) (color : Color) : PPMImage :=
  (rangeInt 0 scale).foldl
    (fun im i =>
      (rangeInt 0 scale).foldl (fun im2 j => im2.set_pixel (px + i) (py + j) color) im)
    img

/-- Modelled from the spec: drawing one character at cursor position cx: look
the glyph up, stamp a block for every set bit at its offset from the glyph's
top-left pixel; an unsupported character draws nothing. -/
def drawChar (img : PPMImage) (cx y : Int) (ch : Char) (color : Color)
    (scale : Int) : PPMImage :=
  match glyphTable ch with
  | none => img
  | some g =>
      g.enum.foldl
        (fun im p =>
          p.2.enum.foldl
            (fun im2 q =>
              if q.2 then
                stampBlock im2 (cx + (q.1 : Int) * scale) (y + (p.1 : Int) * scale)
                  scale color
              else im2)
            im)
        img

/-- Modelled from the spec: FontEngine.draw_text iterates the characters left
to right, the cursor advancing by (glyph_width + 1) * scale = 6 * scale after
every character including spaces and unsupported ones, so the i-th character
sits at x + 6 * scale * i. -/
def font_draw_text (img : PPMImage) (x y : Int) (text : List Char) (color : Color)
    (scale : Int) : PPMImage :=
  text.enum.foldl
    (fun im p => drawChar im (x + 6 * scale * (p.1 : Int)) y p.2 color scale)
    img

/-- Label text of a tick: Python renders str(tick) for the tick value.  The
exact characters are irrelevant to every claim (they only choose which glyphs
the oblivious font engine stamps); the decimal numerator and denominator of
the rational stand in for the float text. -/
def ratStr (q : ℚ) : List Char := intChars q.num ++ '/' :: natChars q.den

/-- Plot.draw_x_ticks: px = int((tick - min) / range * plot_width) + margin,
label drawn at (px - 5, height - margin + 5). -/
def draw_x_ticks (img : PPMImage) (min_val max_val : ℚ) (tick_values : List ℚ)
    (margin plot_width height : Int) : PPMImage :=
  let range_val := rangeOr1 (max_val - min_val)
  tick_values.foldl
    (fun im tick =>
      font_draw_text im (scaleTrunc tick min_val range_val plot_width + margin - 5)
        (height - margin + 5) (ratStr tick) (0, 0, 0) 1)
    img

/-- Plot.draw_y_ticks: py = int((tick - min) / range * plot_height) flipped to
height - py - margin, label drawn at (10, py - 3). -/
def draw_y_ticks (img : PPMImage) (min_val max_val : ℚ) (tick_values : List ℚ)
    (margin plot_height height : Int) : PPMImage :=
  let range_val := rangeOr1 (max_val - min_val)
  tick_values.foldl
    (fun im tick =>
      font_draw_text im 10
        (height - scaleTrunc tick min_val range_val plot_height - margin - 3)
        (ratStr tick) (0, 0, 0) 1)
    img

/-- The axis drawing shared by Scatter.render and Line.render: one horizontal
run along the bottom margin line and one vertical run along the left margin
line. -/
def drawAxes (img : PPMImage) (margin height plot_w plot_h : Int) : PPMImage :=
  let im1 := (rangeInt 0 (plot_w + 1)).foldl
    (fun im i => im.set_pixel (margin + i) (height - margin) (0, 0, 0)) img
  (rangeInt 0 (plot_h + 1)).foldl
    (fun im i => im.set_pixel margin (height - margin - i) (0, 0, 0)) im1

/-- The errors Scatter.render and Line.render can raise: the explicit length
check, and the ValueError Python's min() raises on an empty sequence. -/
inductive RenderErr
  | shapeMismatch
  | emptySeries
deriving DecidableEq

/-- The Scatter composer: its constructor arguments plus the fixed margin the
constructor sets.  A dot_colors of [] plays the role of Python's None (both are
falsy in the per-point color test). -/
structure Scatter where
  x_data : List ℚ
  y_data : List ℚ
  color : Color
  dot_colors : List Color
  point_size : Int
  x_label : List Char
  y_label : List Char
  title : List Char
  x_ticks : List ℚ
  y_ticks : List ℚ
  width : Int
  height : Int
  margin : Int
deriving DecidableEq

/-- The attributes Scatter.render computes before drawing. -/
def Scatter.plot_w (s : Scatter) : Int := s.width - 2 * s.margin

def Scatter.plot_h (s : Scatter) : Int := s.height - 2 * s.margin

def Scatter.min_x (s : Scatter) : ℚ := listMin s.x_data

def Scatter.min_y (s : Scatter) : ℚ := listMin s.y_data

def Scatter.range_x (s : Scatter) : ℚ := rangeOr1 (listMax s.x_data - listMin s.x_data)

def Scatter.range_y (s : Scatter) : ℚ := rangeOr1 (listMax s.y_data - listMin s.y_data)

/-- Scatter._draw_points: every (x, y) pair mapped to pixel space and stamped
as a dot, using dot_colors[i] when that list is nonempty and long enough. -/
def Scatter.draw_points (s : Scatter) (img : PPMImage) : PPMImage :=
  ((s.x_data.zip s.y_data).enum).foldl
    (fun im p =>
      im.draw_dot (scaleTrunc p.2.1 s.min_x s.range_x s.plot_w + s.margin)
        (s.height - scaleTrunc p.2.2 s.min_y s.range_y s.plot_h - s.margin)
        s.point_size
        (if s.dot_colors ≠ [] ∧ p.1 < s.dot_colors.length then
          s.dot_colors.getD p.1 s.color
        else s.color))
    img

/-- Axis drawing step of Scatter.render. -/
def Scatter.step_axes (s : Scatter) (img : PPMImage) : PPMImage :=
  drawAxes img s.margin s.height s.plot_w s.plot_h

/-- Title step of Scatter.render: drawn iff the title is nonempty, centered by
the width // 2 - len * 6 // 2 heuristic, 10 pixels from the top. -/
def Scatter.step_title (s : Scatter) (img : PPMImage) : PPMImage :=
  if s.title ≠ [] then
    font_draw_text img (s.width.fdiv 2 - ((s.title.length : Int) * 6).fdiv 2) 10
      s.title (0, 0, 0) 1
  else img

/-- X-label step of Scatter.render: centered, 25 pixels above the bottom. -/
def Scatter.step_xlabel (s : Scatter) (img : PPMImage) : PPMImage :=
  if s.x_label ≠ [] then
    font_draw_text img (s.width.fdiv 2 - ((s.x_label.length : Int) * 6).fdiv 2)
      (s.height - 25) s.x_label (0, 0, 0) 1
  else img

/-- Y-label step of Scatter.render: first 10 characters at (5, margin). -/
def Scatter.step_ylabel (s : Scatter) (img : PPMImage) : PPMImage :=
  if s.y_label ≠ [] then
    font_draw_text img 5 s.margin (s.y_label.take 10) (0, 0, 0) 1
  else img

/-- X-tick step of Scatter.render. -/
def Scatter.step_xticks (s : Scatter) (img : PPMImage) : PPMImage :=
  if s.x_ticks ≠ [] then
    draw_x_ticks img s.min_x (s.min_x + s.range_x) s.x_ticks s.margin s.plot_w s.height
  else img

/-- Y-tick step of Scatter.render. -/
def Scatter.step_yticks (s : Scatter) (img : PPMImage) : PPMImage :=
  if s.y_ticks ≠ [] then
    draw_y_ticks img s.min_y (s.min_y + s.range_y) s.y_ticks s.margin s.plot_h s.height
  else img

/-- The drawing part of Scatter.render, in source order: points, axes, title,
the two labels, then tick labels. -/
def Scatter.draw_phase (s : Scatter) (img : PPMImage) : PPMImage :=
  s.step_yticks (s.step_xticks (s.step_ylabel (s.step_xlabel
    (s.step_title (s.step_axes (s.draw_points img))))))

/-- Scatter.render on the composer's canvas: the length check raises first,
then Python's min() raises on empty data, and only then is anything drawn.
The returned pair carries the raised error (if any) and the canvas as the
method leaves it. -/
def Scatter.render (s : Scatter) (img : PPMImage) : Option RenderErr × PPMImage :=
  if s.x_data.length ≠ s.y_data.length then (some RenderErr.shapeMismatch, img)
  else if s.x_data.isEmpty then (some RenderErr.emptySeries, img)
  else (none, s.draw_phase img)

/-- The Line composer: its constructor arguments plus the fixed margin. -/
structure Line where
  x_data : List ℚ
  y_data : List ℚ
  color : Color
  line_thickness : Int
  x_label : List Char
  y_label : List Char
  title : List Char
  x_ticks : List ℚ
  y_ticks : List ℚ
  width : Int
  height : Int
  margin : Int
deriving DecidableEq

/-- The attributes Line.render computes before drawing. -/
def Line.plot_w (li : Line) : Int := li.width - 2 * li.margin

def Line.plot_h (li : Line) : Int := li.height - 2 * li.margin

def Line.min_x (li : Line) : ℚ := listMin li.x_data

def Line.min_y (li : Line) : ℚ := listMin li.y_data

def Line.range_x (li : Line) : ℚ := rangeOr1 (listMax li.x_data - listMin li.x_data)

def Line.range_y (li : Line) : ℚ := rangeOr1 (listMax li.y_data - listMin li.y_data)

/-- Line._draw_line: each pixel the Bresenham loop visits is stamped through
draw_dot with the configured thickness as radius.  The loop's visit list is
materialized by bresenham; by bresenham_total it is never none, so the getD
default is unreachable. -/
def Line.draw_line (li : Line) (x0 y0 x1 y1 : Int) (img : PPMImage) : PPMImage :=
  ((bresenham x0 y0 x1 y1).getD []).foldl
    (fun im p => im.draw_dot p.1 p.2 li.line_thickness li.color) img

/-- Line._draw_lines: map every data point to pixel space, then rasterize each
consecutive pair. -/
def Line.draw_lines (li : Line) (img : PPMImage) : PPMImage :=
  let pixel_coords := (li.x_data.zip li.y_data).map
    (fun p =>
      (scaleTrunc p.1 li.min_x li.range_x li.plot_w + li.margin,
        li.height - scaleTrunc p.2 li.min_y li.range_y li.plot_h - li.margin))
  (pixel_coords.dropLast.zip pixel_coords.tail).foldl
    (fun im pq => li.draw_line pq.1.1 pq.1.2 pq.2.1 pq.2.2 im) img

/-- Axis drawing step of Line.render. -/
def Line.step_axes (li : Line) (img : PPMImage) : PPMImage :=
  drawAxes img li.margin li.height li.plot_w li.plot_h

/-- Title step of Line.render. -/
def Line.step_title (li : Line) (img : PPMImage) : PPMImage :=
  if li.title ≠ [] then
    font_draw_text img (li.width.fdiv 2 - ((li.title.length : Int) * 6).fdiv 2) 10
      li.title (0, 0, 0) 1
  else img

/-- X-label step of Line.render. -/
def Line.step_xlabel (li : Line) (img : PPMImage) : PPMImage :=
  if li.x_label ≠ [] then
    font_draw_text img (li.width.fdiv 2 - ((li.x_label.length : Int) * 6).fdiv 2)
      (li.height - 25) li.x_label (0, 0, 0) 1
  else img

/-- Y-label step of Line.render. -/
def Line.step_ylabel (li : Line) (img : PPMImage) : PPMImage :=
  if li.y_label ≠ [] then
    font_draw_text img 5 li.margin (li.y_label.take 10) (0, 0, 0) 1
  else img

/-- X-tick step of Line.render. -/
def Line.step_xticks (li : Line) (img : PPMImage) : PPMImage :=
  if li.x_ticks ≠ [] then
    draw_x_ticks img li.min_x (li.min_x + li.range_x) li.x_ticks li.margin
      li.plot_w li.height
  else img

/-- Y-tick step of Line.render. -/
def Line.step_yticks (li : Line) (img : PPMImage) : PPMImage :=
  if li.y_ticks ≠ [] then
    draw_y_ticks img li.min_y (li.min_y + li.range_y) li.y_ticks li.margin
      li.plot_h li.height
  else img

/-- The drawing part of Line.render, in source order: connected lines, axes,
title, the two labels, then tick labels. -/
def Line.draw_phase (li : Line) (img : PPMImage) : PPMImage :=
  li.step_yticks (li.step_xticks (li.step_ylabel (li.step_xlabel
    (li.step_title (li.step_axes (li.draw_lines img))))))

/-- Line.render on the composer's canvas, with the same raise-before-drawing
structure as Scatter.render. -/
def Line.render (li : Line) (img : PPMImage) : Option RenderErr × PPMImage :=
  if li.x_data.length ≠ li.y_data.length then (some RenderErr.shapeMismatch, img)
  else if li.x_data.isEmpty then (some RenderErr.emptySeries, img)
  else (none, li.draw_phase img)

lemma obliv_draw_dot (x y r : Int) (c : Color) :
    Oblivious (fun img => img.draw_dot x y r c) := by
  unfold PPMImage.draw_dot
  exact obliv_foldl _
    (fun dx im =>
      (rangeInt (-r) (r + 1)).foldl (fun im2 dy => im2.set_pixel (x + dx) (y + dy) c) im)
    (fun dx => obliv_foldl _ (fun dy im2 => im2.set_pixel (x + dx) (y + dy) c)
      (fun dy => obliv_set_pixel _ _ _))

lemma obliv_stampBlock (px py sc : Int) (c : Color) :
    Oblivious (fun img => stampBlock img px py sc c) := by
  unfold stampBlock
  exact obliv_foldl _
    (fun i im =>
      (rangeInt 0 sc).foldl (fun im2 j => im2.set_pixel (px + i) (py + j) c) im)
    (fun i => obliv_foldl _ (fun j im2 => im2.set_pixel (px + i) (py + j) c)
      (fun j => obliv_set_pixel _ _ _))

lemma obliv_drawChar (cx y : Int) (ch : Char) (c : Color) (sc : Int) :
    Oblivious (fun img => drawChar img cx y ch c sc) := by
  unfold drawChar
  cases glyphTable ch with
  | none => exact obliv_id
  | some g =>
      exact obliv_foldl _
        (fun (p : Nat × List Bool) im => p.2.enum.foldl
          (fun im2 (q : Nat × Bool) =>
            if q.2 then
              stampBlock im2 (cx + (q.1 : Int) * sc) (y + (p.1 : Int) * sc) sc c
            else im2) im)
        (fun p => obliv_foldl _
          (fun (q : Nat × Bool) im2 =>
            if q.2 then
              stampBlock im2 (cx + (q.1 : Int) * sc) (y + (p.1 : Int) * sc) sc c
            else im2)
          (fun q => obliv_ite _ (obliv_stampBlock _ _ _ _) obliv_id))

lemma obliv_font_draw_text (x y : Int) (text : List Char) (c : Color) (sc : Int) :
    Oblivious (fun img => font_draw_text img x y text c sc) := by
  unfold font_draw_text
  exact obliv_foldl _
    (fun (p : Nat × Char) im => drawChar im (x + 6 * sc * (p.1 : Int)) y p.2 c sc)
    (fun p => obliv_drawChar _ _ _ _ _)

lemma obliv_draw_x_ticks (mn mx : ℚ) (ticks : List ℚ) (margin pw h : Int) :
    Oblivious (fun img => draw_x_ticks img mn mx ticks margin pw h) := by
  unfold draw_x_ticks
  exact obliv_foldl _
    (fun tick im =>
      font_draw_text im (scaleTrunc tick mn (rangeOr1 (mx - mn)) pw + margin - 5)
        (h - margin + 5) (ratStr tick) (0, 0, 0) 1)
    (fun tick => obliv_font_draw_text _ _ _ _ _)

lemma obliv_draw_y_ticks (mn mx : ℚ) (ticks : List ℚ) (margin ph h : Int) :
    Oblivious (fun img => draw_y_ticks img mn mx ticks margin ph h) := by
  unfold draw_y_ticks
  exact obliv_foldl _
    (fun tick im =>
      font_draw_text im 10
        (h - scaleTrunc tick mn (rangeOr1 (mx - mn)) ph - margin - 3)
        (ratStr tick) (0, 0, 0) 1)
    (fun tick => obliv_font_draw_text _ _ _ _ _)

lemma obliv_drawAxes (margin h pw ph : Int) :
    Oblivious (fun img => drawAxes img margin h pw ph) := by
  unfold drawAxes
  exact obliv_comp
    (obliv_foldl _ (fun i im => im.set_pixel (margin + i) (h - margin) (0, 0, 0))
      (fun i => obliv_set_pixel _ _ _))
    (obliv_foldl _ (fun i im => im.set_pixel margin (h - margin - i) (0, 0, 0))
      (fun i => obliv_set_pixel _ _ _))

lemma obliv_scatter_draw_points (s : Scatter) :
    Oblivious (fun img => s.draw_points img) := by
  unfold Scatter.draw_points
  exact obliv_foldl _
    (fun (p : Nat × ℚ × ℚ) im =>
      im.draw_dot (scaleTrunc p.2.1 s.min_x s.range_x s.plot_w + s.margin)
        (s.height - scaleTrunc p.2.2 s.min_y s.range_y s.plot_h - s.margin)
        s.point_size
        (if s.dot_colors ≠ [] ∧ p.1 < s.dot_colors.length then
          s.dot_colors.getD p.1 s.color
        else s.color))
    (fun p => obliv_draw_dot _ _ _ _)

lemma obliv_scatter_step_axes (s : Scatter) :
    Oblivious (fun img => s.step_axes img) := obliv_drawAxes _ _ _ _

lemma obliv_scatter_step_title (s : Scatter) :
    Oblivious (fun img => s.step_title img) := by
  unfold Scatter.step_title
  exact obliv_ite _ (obliv_font_draw_text _ _ _ _ _) obliv_id

lemma obliv_scatter_step_xlabel (s : Scatter) :
    Oblivious (fun img => s.step_xlabel img) := by
  unfold Scatter.step_xlabel
  exact obliv_ite _ (obliv_font_draw_text _ _ _ _ _) obliv_id

lemma obliv_scatter_step_ylabel (s : Scatter) :
    Oblivious (fun img => s.step_ylabel img) := by
  unfold Scatter.step_ylabel
  exact obliv_ite _ (obliv_font_draw_text _ _ _ _ _) obliv_id

lemma obliv_scatter_step_xticks (s : Scatter) :
    Oblivious (fun img => s.step_xticks img) := by
  unfold Scatter.step_xticks
  exact obliv_ite _ (obliv_draw_x_ticks _ _ _ _ _ _) obliv_id

lemma obliv_scatter_step_yticks (s : Scatter) :
    Oblivious (fun img => s.step_yticks img) := by
  unfold Scatter.step_yticks
  exact obliv_ite _ (obliv_draw_y_ticks _ _ _ _ _ _) obliv_id

lemma obliv_scatter_draw_phase (s : Scatter) :
    Oblivious (fun img => s.draw_phase img) := by
  unfold Scatter.draw_phase
  exact obliv_comp (obliv_comp (obliv_comp (obliv_comp (obliv_comp (obliv_comp
    (obliv_scatter_draw_points s)
    (obliv_scatter_step_axes s))
    (obliv_scatter_step_title s))
    (obliv_scatter_step_xlabel s))
    (obliv_scatter_step_ylabel s))
    (obliv_scatter_step_xticks s))
    (obliv_scatter_step_yticks s)

lemma obliv_line_draw_line (li : Line) (x0 y0 x1 y1 : Int) :
    Oblivious (fun img => li.draw_line x0 y0 x1 y1 img) := by
  unfold Line.draw_line
  exact obliv_foldl _
    (fun (p : Int × Int) im => im.draw_dot p.1 p.2 li.line_thickness li.color)
    (fun p => obliv_draw_dot _ _ _ _)

lemma obliv_line_draw_lines (li : Line) :
    Oblivious (fun img => li.draw_lines img) := by
  unfold Line.draw_lines
  exact obliv_foldl _
    (fun (pq : (Int × Int) × Int × Int) im => li.draw_line pq.1.1 pq.1.2 pq.2.1 pq.2.2 im)
    (fun pq => obliv_line_draw_line _ _ _ _ _)

lemma obliv_line_step_axes (li : Line) :
    Oblivious (fun img => li.step_axes img) := obliv_drawAxes _ _ _ _

lemma obliv_line_step_title (li : Line) :
    Oblivious (fun img => li.step_title img) := by
  unfold Line.step_title
  exact obliv_ite _ (obliv_font_draw_text _ _ _ _ _) obliv_id

lemma obliv_line_step_xlabel (li : Line) :
    Oblivious (fun img => li.step_xlabel img) := by
  unfold Line.step_xlabel
  exact obliv_ite _ (obliv_font_draw_text _ _ _ _ _) obliv_id

lemma obliv_line_step_ylabel (li : Line) :
    Oblivious (fun img => li.step_ylabel img) := by
  unfold Line.step_ylabel
  exact obliv_ite _ (obliv_font_draw_text _ _ _ _ _) obliv_id

lemma obliv_line_step_xticks (li : Line) :
    Oblivious (fun img => li.step_xticks img) := by
  unfold Line.step_xticks
  exact obliv_ite _ (obliv_draw_x_ticks _ _ _ _ _ _) obliv_id

lemma obliv_line_step_yticks (li : Line) :
    Oblivious (fun img => li.step_yticks img) := by
  unfold Line.step_yticks
  exact obliv_ite _ (obliv_draw_y_ticks _ _ _ _ _ _) obliv_id

lemma obliv_line_draw_phase (li : Line) :
    Oblivious (fun img => li.draw_phase img) := by
  unfold Line.draw_phase
  exact obliv_comp (obliv_comp (obliv_comp (obliv_comp (obliv_comp (obliv_comp
    (obliv_line_draw_lines li)
    (obliv_line_step_axes li))
    (obliv_line_step_title li))
    (obliv_line_step_xlabel li))
    (obliv_line_step_ylabel li))
    (obliv_line_step_xticks li))
    (obliv_line_step_yticks li)

/-- Whitespace as it occurs in a saved PPM stream: the space separators and
the row newlines. -/
def isWs (c : Char) : Bool := c = ' ' ∨ c = '\n'

/-- Whitespace-separated tokenizer over a character stream, accumulating the
current token in reverse. -/
def tokensAux : List Char → List Char → List (List Char)
  | [], cur => if cur.isEmpty then [] else [cur.reverse]
  | c :: cs, cur =>
    if isWs c then
      if cur.isEmpty then tokensAux cs [] else cur.reverse :: tokensAux cs []
    else tokensAux cs (c :: cur)

/-- The whitespace-separated tokens of a character stream. -/
def tokens (l : List Char) : List (List Char) := tokensAux l []

/-- Numeric value of a decimal digit character. -/
def digitVal (c : Char) : Nat := c.toNat - 48

/-- Numeric value of a decimal token. -/
def tokNat (t : List Char) : Nat := t.foldl (fun a c => 10 * a + digitVal c) 0

lemma natChars_ne_nil (n : Nat) : natChars n ≠ [] := by
  rw [natChars_eq]
  split <;> simp

lemma natChars_digits (n : Nat) : ∀ c ∈ natChars n, 48 ≤ c.toNat ∧ c.toNat < 58 := by
  induction n using Nat.strong_induction_on with
  | _ n ih =>
      rw [natChars_eq]
      split
      · rename_i h
        intro c hc
        rw [List.mem_singleton] at hc
        subst hc
        interval_cases n <;> simp_all <;> rfl
      · rename_i h
        intro c hc
        rw [List.mem_append] at hc
        rcases hc with hc | hc
        · exact ih (n / 10) (Nat.div_lt_self (by omega) (by omega)) c hc
        · rw [List.mem_singleton] at hc
          subst hc
          have h10 : n % 10 < 10 := Nat.mod_lt _ (by omega)
          interval_cases hm : (n % 10) <;> simp_all <;> rfl

lemma digitVal_char (d : Nat) (h : d < 10) : digitVal (Char.ofNat (48 + d)) = d := by
  interval_cases d <;> decide

lemma natChars_not_ws (n : Nat) : ∀ c ∈ natChars n, isWs c = false := by
  intro c hc
  have h := natChars_digits n c hc
  unfold isWs
  rcases h with ⟨h1, h2⟩
  have hsp : c ≠ ' ' := by intro he; subst he; simp at h1
  have hnl : c ≠ '\n' := by intro he; subst he; simp at h1
  simp [hsp, hnl]

lemma natChars_val (n : Nat) : ∀ acc : Nat,
    (natChars n).foldl (fun a c => 10 * a + digitVal c) acc =
      acc * 10 ^ (natChars n).length + n := by
  induction n using Nat.strong_induction_on with
  | _ n ih =>
      intro acc
      rw [natChars_eq]
      split
      · rename_i h
        simp only [List.foldl_cons, List.foldl_nil, List.length_singleton]
        rw [digitVal_char n h]
        ring
      · rename_i h
        rw [List.foldl_append, ih (n / 10) (Nat.div_lt_self (by omega) (by omega)) acc]
        simp only [List.foldl_cons, List.foldl_nil, List.length_append,
          List.length_singleton]
        rw [digitVal_char (n % 10) (Nat.mod_lt _ (by omega))]
        calc 10 * (acc * 10 ^ (natChars (n / 10)).length + n / 10) + n % 10
            = acc * 10 ^ ((natChars (n / 10)).length + 1) +
                (10 * (n / 10) + n % 10) := by ring
          _ = acc * 10 ^ ((natChars (n / 10)).length + 1) + n := by
                rw [Nat.div_add_mod]

lemma tokNat_natChars (n : Nat) : tokNat (natChars n) = n := by
  have h := natChars_val n 0
  simpa [tokNat] using h

lemma tokensAux_cons (c : Char) (cs cur : List Char) :
    tokensAux (c :: cs) cur =
      if isWs c then
        if cur.isEmpty then tokensAux cs [] else cur.reverse :: tokensAux cs []
      else tokensAux cs (c :: cur) := rfl

lemma tokensAux_ws (c : Char) (hs : isWs c = true) (rest : List Char) :
    tokensAux (c :: rest) [] = tokensAux rest [] := by
  rw [tokensAux_cons, hs]
  simp

/-- A nonempty whitespace-free token followed by a whitespace character is cut
off whole by the tokenizer, prefixed by whatever was already accumulated. -/
lemma tokensAux_token : ∀ t : List Char, t ≠ [] → (∀ c ∈ t, isWs c = false) →
    ∀ w : Char, isWs w = true → ∀ rest cur : List Char,
    tokensAux (t ++ w :: rest) cur = (cur.reverse ++ t) :: tokensAux rest [] := by
  intro t
  induction t with
  | nil => intro h; exact absurd rfl h
  | cons a t' ih =>
      intro _ hns w hw rest cur
      have ha : isWs a = false := hns a (List.mem_cons_self _ _)
      rw [List.cons_append, tokensAux_cons, ha]
      simp only [Bool.false_eq_true, if_false]
      cases t' with
      | nil =>
          rw [List.nil_append, tokensAux_cons, hw]
          simp
      | cons b t'' =>
          rw [ih (by simp) (fun c hc => hns c (List.mem_cons_of_mem _ hc)) w hw rest
            (a :: cur)]
          simp

/-- The character stream one pixel row contributes to the file. -/
def rowChars (row : List Color) : List Char := (row.map pixelChars).flatten ++ ['\n']

lemma foldl_chars_row (row : List Color) : ∀ acc : List Char,
    row.foldl (fun a c => a ++ pixelChars c) acc = acc ++ (row.map pixelChars).flatten := by
  induction row with
  | nil => intro acc; simp
  | cons c t ih =>
      intro acc
      simp only [List.foldl_cons, List.map_cons, List.flatten_cons]
      rw [ih]
      simp [List.append_assoc]

lemma foldl_chars_rows (rows : List (List Color)) : ∀ acc : List Char,
    rows.foldl (fun acc row => (row.foldl (fun a c => a ++ pixelChars c) acc) ++ ['\n'])
        acc =
      acc ++ (rows.map rowChars).flatten := by
  induction rows with
  | nil => intro acc; simp
  | cons r t ih =>
      intro acc
      simp only [List.foldl_cons, List.map_cons, List.flatten_cons]
      rw [foldl_chars_row, ih]
      simp [rowChars, List.append_assoc]

/-- The saved stream, restated: header lines then the per-row character runs. -/
lemma saveChars_eq (img : PPMImage) :
    img.saveChars =
      ['P', '3', '\n'] ++ intChars img.width ++ [' '] ++ intChars img.height
        ++ ['\n', '2', '5', '5', '\n'] ++ (img.pixels.map rowChars).flatten := by
  unfold PPMImage.saveChars
  rw [foldl_chars_rows]

lemma intChars_nonneg (n : Int) (h : 0 ≤ n) : intChars n = natChars n.toNat := by
  unfold intChars
  rw [if_neg (by omega)]

/-- The decimal tokens one pixel contributes. -/
def pixToks (c : Color) : List (List Char) :=
  [natChars c.1.toNat, natChars c.2.1.toNat, natChars c.2.2.toNat]

/-- The decimal tokens one pixel row contributes. -/
def rowToks (row : List Color) : List (List Char) := (row.map pixToks).flatten

/-- The channel values of one row, in file order. -/
def rowVals (row : List Color) : List Nat :=
  (row.map (fun c => [c.1.toNat, c.2.1.toNat, c.2.2.toNat])).flatten

/-- The channel values of the whole grid, in file order. -/
def chanVals (rows : List (List Color)) : List Nat := (rows.map rowVals).flatten

/-- Every channel of every pixel is nonnegative (Python prints such values
without a sign). -/
def ChansNonneg (rows : List (List Color)) : Prop :=
  ∀ row ∈ rows, ∀ c ∈ row, 0 ≤ c.1 ∧ 0 ≤ c.2.1 ∧ 0 ≤ c.2.2

lemma tokensAux_pixel (c : Color) (h : 0 ≤ c.1 ∧ 0 ≤ c.2.1 ∧ 0 ≤ c.2.2)
    (rest : List Char) :
    tokensAux (pixelChars c ++ rest) [] =
      natChars c.1.toNat :: natChars c.2.1.toNat :: natChars c.2.2.toNat ::
        tokensAux rest [] := by
  unfold pixelChars
  rw [intChars_nonneg _ h.1, intChars_nonneg _ h.2.1, intChars_nonneg _ h.2.2]
  simp only [List.append_assoc, List.cons_append, List.singleton_append, List.nil_append]
  rw [tokensAux_token _ (natChars_ne_nil _) (natChars_not_ws _) ' ' (by decide) _ [],
    tokensAux_token _ (natChars_ne_nil _) (natChars_not_ws _) ' ' (by decide) _ [],
    tokensAux_token _ (natChars_ne_nil _) (natChars_not_ws _) ' ' (by decide) _ []]
  simp

lemma tokensAux_row (row : List Color)
    (h : ∀ c ∈ row, 0 ≤ c.1 ∧ 0 ≤ c.2.1 ∧ 0 ≤ c.2.2) (rest : List Char) :
    tokensAux (rowChars row ++ rest) [] = rowToks row ++ tokensAux rest [] := by
  induction row with
  | nil =>
      unfold rowChars rowToks
      simp only [List.map_nil, List.flatten_nil, List.nil_append, List.singleton_append]
      exact tokensAux_ws '\n' (by decide) rest
  | cons c t ih =>
      unfold rowChars rowToks
      simp only [List.map_cons, List.flatten_cons, List.append_assoc]
      rw [show pixelChars c ++ ((t.map pixelChars).flatten ++ (['\n'] ++ rest)) =
        pixelChars c ++ (rowChars t ++ rest) from by unfold rowChars; simp]
      rw [tokensAux_pixel c (h c (List.mem_cons_self _ _)),
        ih (fun d hd => h d (List.mem_cons_of_mem _ hd))]
      unfold rowToks pixToks
      simp

lemma tokensAux_grid (rows : List (List Color)) (h : ChansNonneg rows)
    (rest : List Char) :
    tokensAux ((rows.map rowChars).flatten ++ rest) [] =
      (rows.map rowToks).flatten ++ tokensAux rest [] := by
  induction rows with
  | nil => simp
  | cons r t ih =>
      simp only [List.map_cons, List.flatten_cons, List.append_assoc]
      rw [tokensAux_row r (h r (List.mem_cons_self _ _)),
        ih (fun row hrow => h row (List.mem_cons_of_mem _ hrow))]

/-- The token stream of a saved well formed image with printable channels. -/
lemma tokens_saveChars (img : PPMImage) (hw : 0 ≤ img.width) (hh : 0 ≤ img.height)
    (hchan : ChansNonneg img.pixels) :
    tokens img.saveChars =
      ['P', '3'] :: natChars img.width.toNat :: natChars img.height.toNat ::
        ['2', '5', '5'] :: (img.pixels.map rowToks).flatten := by
  rw [saveChars_eq img]
  unfold tokens
  rw [intChars_nonneg _ hw, intChars_nonneg _ hh]
  rw [show ['P', '3', '\n'] ++ natChars img.width.toNat ++ [' '] ++
      natChars img.height.toNat ++ ['\n', '2', '5', '5', '\n'] ++
      (img.pixels.map rowChars).flatten =
      ['P', '3'] ++ '\n' :: (natChars img.width.toNat ++ ' ' ::
        (natChars img.height.toNat ++ '\n' :: (['2', '5', '5'] ++ '\n' ::
          (img.pixels.map rowChars).flatten))) from by simp]
  rw [tokensAux_token _ (by decide) (by decide) '\n' (by decide) _ [],
    tokensAux_token _ (natChars_ne_nil _) (natChars_not_ws _) ' ' (by decide) _ [],
    tokensAux_token _ (natChars_ne_nil _) (natChars_not_ws _) '\n' (by decide) _ [],
    tokensAux_token _ (by decide) (by decide) '\n' (by decide) _ []]
  rw [show (img.pixels.map rowChars).flatten =
    (img.pixels.map rowChars).flatten ++ [] from by simp]
  rw [tokensAux_grid img.pixels hchan []]
  simp [tokensAux]

/-- Reassemble a flat list of channel values into pixels, three values each. -/
def parseTriples : List Nat → Option (List Color)
  | [] => some []
  | r :: g :: b :: t =>
      (parseTriples t).map (fun l => (((r : Int), (g : Int), (b : Int)) : Color) :: l)
  | _ => none

/-- Cut a flat pixel list into rows of w pixels each. -/
def chunkRows (w : Nat) : List Color → Option (List (List Color))
  | [] => some []
  | c :: cs =>
      if h : w = 0 then none
      else (chunkRows w ((c :: cs).drop w)).map (fun rs => (c :: cs).take w :: rs)
termination_by l => l.length
decreasing_by simp [List.length_drop]; omega

lemma chunkRows_nil (w : Nat) : chunkRows w [] = some [] := by
  simp only [chunkRows]

lemma chunkRows_cons (w : Nat) (a : Color) (l : List Color) :
    chunkRows w (a :: l) =
      if w = 0 then none
      else (chunkRows w ((a :: l).drop w)).map (fun rs => (a :: l).take w :: rs) := by
  simp only [chunkRows]
  by_cases h : w = 0 <;> simp [h]

/-- A plain-text P3 parser: tokenize, check the magic and the 255 maximum,
read the dimensions, reassemble the channel list into rows of pixels. -/
def parsePPM (s : List Char) : Option (Int × Int × List (List Color)) :=
  match tokens s with
  | p3 :: wtok :: htok :: mtok :: rest =>
      if p3 = ['P', '3'] ∧ mtok = ['2', '5', '5'] then
        let w := tokNat wtok
        let h := tokNat htok
        match parseTriples (rest.map tokNat) with
        | none => none
        | some cols =>
            if cols.length = w * h then
              (chunkRows w cols).map (fun rows => ((w : Int), (h : Int), rows))
            else none
      else none
  | _ => none

lemma map_tokNat_rowToks (row : List Color) :
    (rowToks row).map tokNat = rowVals row := by
  induction row with
  | nil => rfl
  | cons c t ih =>
      unfold rowToks rowVals pixToks at *
      simp only [List.map_cons, List.flatten_cons, List.map_append, ih]
      simp [tokNat_natChars]

lemma map_tokNat_grid (rows : List (List Color)) :
    ((rows.map rowToks).flatten).map tokNat = chanVals rows := by
  induction rows with
  | nil => rfl
  | cons r t ih =>
      unfold chanVals at *
      simp only [List.map_cons, List.flatten_cons, List.map_append, ih,
        map_tokNat_rowToks]

lemma parseTriples_row (row : List Color)
    (h : ∀ c ∈ row, 0 ≤ c.1 ∧ 0 ≤ c.2.1 ∧ 0 ≤ c.2.2) (t : List Nat) :
    parseTriples (rowVals row ++ t) = (parseTriples t).map (fun l => row ++ l) := by
  induction row with
  | nil =>
      simp only [rowVals, List.map_nil, List.flatten_nil, List.nil_append]
      cases parseTriples t <;> simp
  | cons c r ih =>
      have hc := h c (List.mem_cons_self _ _)
      have hr : ∀ d ∈ r, 0 ≤ d.1 ∧ 0 ≤ d.2.1 ∧ 0 ≤ d.2.2 :=
        fun d hd => h d (List.mem_cons_of_mem _ hd)
      obtain ⟨a, b, d⟩ := c
      have hcast : ((((a.toNat : Nat) : Int), ((b.toNat : Nat) : Int),
          ((d.toNat : Nat) : Int)) : Color) = ((a, b, d) : Color) := by
        simp only at hc
        rw [Int.toNat_of_nonneg hc.1, Int.toNat_of_nonneg hc.2.1,
          Int.toNat_of_nonneg hc.2.2]
      show parseTriples (a.toNat :: b.toNat :: d.toNat :: (rowVals r ++ t)) = _
      rw [parseTriples, ih hr]
      rw [hcast]
      cases parseTriples t <;> simp

lemma parseTriples_grid (rows : List (List Color)) (h : ChansNonneg rows) :
    parseTriples (chanVals rows) = some rows.flatten := by
  induction rows with
  | nil => rfl
  | cons r t ih =>
      unfold chanVals at *
      simp only [List.map_cons, List.flatten_cons]
      rw [parseTriples_row r (h r (List.mem_cons_self _ _)),
        ih (fun row hrow => h row (List.mem_cons_of_mem _ hrow))]
      simp

lemma chunkRows_flatten (w : Nat) (hw : 0 < w) (rows : List (List Color))
    (h : ∀ row ∈ rows, row.length = w) :
    chunkRows w rows.flatten = some rows := by
  induction rows with
  | nil => simp only [List.flatten_nil, chunkRows_nil]
  | cons r t ih =>
      have hrlen : r.length = w := h r (List.mem_cons_self _ _)
      have hrne : r ≠ [] := by
        intro he
        rw [he] at hrlen
        simp at hrlen
        omega
      simp only [List.flatten_cons]
      cases hr : r with
      | nil => exact absurd hr hrne
      | cons a r' =>
          rw [show (a :: r') ++ t.flatten = a :: (r' ++ t.flatten) from rfl]
          rw [chunkRows_cons]
          rw [if_neg (by omega)]
          rw [show a :: (r' ++ t.flatten) = (a :: r') ++ t.flatten from rfl]
          have hlen' : (a :: r').length = w := by rw [← hr]; exact hrlen
          rw [List.take_left' hlen', List.drop_left' hlen', ← hr]
          rw [ih (fun row hrow => h row (List.mem_cons_of_mem _ hrow))]
          rfl

lemma flatten_length_const {α : Type} (w : Nat) (rows : List (List α))
    (h : ∀ row ∈ rows, row.length = w) :
    rows.flatten.length = rows.length * w := by
  induction rows with
  | nil => simp
  | cons r t ih =>
      simp only [List.flatten_cons, List.length_append, List.length_cons,
        h r (List.mem_cons_self _ _), ih (fun row hrow => h row (List.mem_cons_of_mem _ hrow))]
      ring

/-- Parsing the saved text of a well formed image with positive dimensions and
printable channel values recovers the width, the height and every pixel. -/
lemma parse_save (img : PPMImage) (hwf : img.WF) (hw : 0 < img.width)
    (hh : 0 < img.height) (hchan : ChansNonneg img.pixels) :
    parsePPM img.saveChars = some (img.width, img.height, img.pixels) := by
  unfold parsePPM
  rw [tokens_saveChars img (le_of_lt hw) (le_of_lt hh) hchan]
  dsimp only
  rw [if_pos ⟨rfl, rfl⟩]
  rw [tokNat_natChars, tokNat_natChars, map_tokNat_grid,
    parseTriples_grid img.pixels hchan]
  dsimp only
  have hflat : img.pixels.flatten.length = img.pixels.length * img.width.toNat :=
    flatten_length_const _ _ hwf.2
  rw [if_pos (by rw [hflat, hwf.1, Nat.mul_comm])]
  rw [chunkRows_flatten img.width.toNat (by omega) img.pixels hwf.2]
  simp only [Option.map_some']
  rw [Int.toNat_of_nonneg (le_of_lt hw), Int.toNat_of_nonneg (le_of_lt hh)]

/-- One triple of the claimed row grammar: the three channel values separated
by single spaces, with no trailing separator. -/
def tripChars (c : Color) : List Char :=
  intChars c.1 ++ [' '] ++ intChars c.2.1 ++ [' '] ++ intChars c.2.2

/-- Single-space separation of a list of chunks, as the claim words it. -/
def sepSpace : List (List Char) → List Char
  | [] => []
  | [t] => t
  | t :: ts => t ++ ' ' :: sepSpace ts

/-- The row line exactly as claim C2 words it: the row's triples separated by
single spaces, one trailing newline, no other characters. -/
def claimRowLine (row : List Color) : List Char :=
  sepSpace (row.map tripChars) ++ ['\n']

/-- The whole file exactly as claim C2 words it. -/
def claimSave (img : PPMImage) : List Char :=
  ['P', '3', '\n'] ++ intChars img.width ++ [' '] ++ intChars img.height
    ++ ['\n', '2', '5', '5', '\n'] ++ (img.pixels.map claimRowLine).flatten

/-- The row line the code actually writes: as the claim, except that every
triple carries one trailing space, so a space sits before each newline. -/
def actualRowLine (row : List Color) : List Char :=
  sepSpace (row.map tripChars) ++ (if row.isEmpty then [] else [' ']) ++ ['\n']

/-- The whole file with the corrected row grammar. -/
def actualSave (img : PPMImage) : List Char :=
  ['P', '3', '\n'] ++ intChars img.width ++ [' '] ++ intChars img.height
    ++ ['\n', '2', '5', '5', '\n'] ++ (img.pixels.map actualRowLine).flatten

lemma flatten_pixelChars (row : List Color) :
    (row.map pixelChars).flatten =
      sepSpace (row.map tripChars) ++ (if row.isEmpty then [] else [' ']) := by
  induction row with
  | nil => rfl
  | cons c t ih =>
      cases t with
      | nil =>
          simp only [List.map_cons, List.map_nil, List.flatten_cons,
            List.flatten_nil, List.append_nil, List.isEmpty_cons, if_false]
          unfold pixelChars tripChars sepSpace
          simp
      | cons d t' =>
          simp only [List.map_cons, List.flatten_cons] at *
          rw [ih]
          simp only [List.isEmpty_cons, if_false]
          rw [show sepSpace (tripChars c :: tripChars d :: t'.map tripChars) =
            tripChars c ++ ' ' :: sepSpace (tripChars d :: t'.map tripChars) from rfl]
          unfold pixelChars tripChars
          simp

lemma rowChars_eq_actual (row : List Color) : rowChars row = actualRowLine row := by
  unfold rowChars actualRowLine
  rw [flatten_pixelChars]

/-- The character stream the code writes, described line by line: what claim C2
says, corrected by the per-triple trailing space. -/
lemma saveChars_eq_actual (img : PPMImage) : img.saveChars = actualSave img := by
  rw [saveChars_eq]
  unfold actualSave
  rw [funext rowChars_eq_actual]

/-- The write list draw_dot performs: one write per (dx, dy) of the square. -/
def dotWrites (x y r : Int) (c : Color) : List PixWrite :=
  ((rangeInt (-r) (r + 1)).map (fun dx =>
    (rangeInt (-r) (r + 1)).map (fun dy => (((x + dx, y + dy), c) : PixWrite)))).flatten

lemma mem_rangeInt (a b i : Int) : i ∈ rangeInt a b ↔ a ≤ i ∧ i < b := by
  unfold rangeInt
  rw [List.mem_map]
  constructor
  · rintro ⟨n, hn, heq⟩
    rw [List.mem_range] at hn
    omega
  · rintro ⟨h1, h2⟩
    refine ⟨(i - a).toNat, ?_, by omega⟩
    rw [List.mem_range]
    omega

lemma draw_dot_eq_applyWrites (img : PPMImage) (x y r : Int) (c : Color) :
    img.draw_dot x y r c = applyWrites img (dotWrites x y r c) := by
  unfold PPMImage.draw_dot applyWrites dotWrites
  rw [List.foldl_flatten, List.foldl_map]
  congr 1
  funext im dx
  rw [List.foldl_map]

lemma mem_dotWrites (x y r : Int) (c : Color) (w : PixWrite) :
    w ∈ dotWrites x y r c ↔
      ∃ dx dy : Int, -r ≤ dx ∧ dx ≤ r ∧ -r ≤ dy ∧ dy ≤ r ∧ w = ((x + dx, y + dy), c) := by
  unfold dotWrites
  simp only [List.mem_flatten, List.mem_map]
  constructor
  · rintro ⟨l, ⟨dx, hdx, rfl⟩, hw⟩
    rw [List.mem_map] at hw
    obtain ⟨dy, hdy, rfl⟩ := hw
    rw [mem_rangeInt] at hdx hdy
    exact ⟨dx, dy, by omega, by omega, by omega, by omega, rfl⟩
  · rintro ⟨dx, dy, h1, h2, h3, h4, rfl⟩
    refine ⟨_, ⟨dx, ?_, rfl⟩, List.mem_map.mpr ⟨dy, ?_, rfl⟩⟩
    · rw [mem_rangeInt]; omega
    · rw [mem_rangeInt]; omega

lemma scatter_render_ok (s : Scatter) (img : PPMImage)
    (h1 : s.x_data.length = s.y_data.length) (h2 : s.x_data ≠ []) :
    s.render img = (none, s.draw_phase img) := by
  unfold Scatter.render
  rw [if_neg (by omega), if_neg (by simp only [List.isEmpty_iff]; exact h2)]

lemma line_render_ok (li : Line) (img : PPMImage)
    (h1 : li.x_data.length = li.y_data.length) (h2 : li.x_data ≠ []) :
    li.render img = (none, li.draw_phase img) := by
  unfold Line.render
  rw [if_neg (by omega), if_neg (by simp only [List.isEmpty_iff]; exact h2)]

/-- Claim C1, counterexample: for the equal-length input pair ([], []) neither
Scatter.render nor Line.render completes; both raise the ValueError coming
from min() on an empty sequence (not the shape-mismatch error), so the claim
that render completes for every equal-length pair, including two empty lists,
is false. -/
theorem C1_counterexample :
    ([] : List ℚ).length = ([] : List ℚ).length ∧
    (Scatter.render ⟨[], [], (0, 0, 0), [], 2, [], [], [], [], [], 8, 8, 50⟩
      (mkPPM 8 8 (255, 255, 255))).1 ≠ none ∧
    (Line.render ⟨[], [], (0, 0, 0), 1, [], [], [], [], [], 8, 8, 50⟩
      (mkPPM 8 8 (255, 255, 255))).1 ≠ none := by
  refine ⟨rfl, ?_, ?_⟩ <;> decide

/-- Claim C1, amended: Scatter.render and Line.render raise the shape-mismatch
error iff the two series differ in length, and for equal-length nonempty
series they complete without raising; for two empty lists they instead fail
with the empty-sequence error of min(). -/
theorem C1_shape_amended (s : Scatter) (li : Line) (img img' : PPMImage) :
    ((s.render img).1 = some RenderErr.shapeMismatch ↔
      s.x_data.length ≠ s.y_data.length) ∧
    (s.x_data.length = s.y_data.length → s.x_data ≠ [] → (s.render img).1 = none) ∧
    ((li.render img').1 = some RenderErr.shapeMismatch ↔
      li.x_data.length ≠ li.y_data.length) ∧
    (li.x_data.length = li.y_data.length → li.x_data ≠ [] →
      (li.render img').1 = none) := by
  refine ⟨?_, ?_, ?_, ?_⟩
  · unfold Scatter.render
    by_cases hlen : s.x_data.length ≠ s.y_data.length
    · rw [if_pos hlen]
      simp [hlen]
    · rw [if_neg hlen]
      split <;> simp [hlen]
  · intro h1 h2
    rw [scatter_render_ok s img h1 h2]
  · unfold Line.render
    by_cases hlen : li.x_data.length ≠ li.y_data.length
    · rw [if_pos hlen]
      simp [hlen]
    · rw [if_neg hlen]
      split <;> simp [hlen]
  · intro h1 h2
    rw [line_render_ok li img' h1 h2]

/-- Claim C1, amended, witness at a concrete equal-length nonempty input. -/
theorem C1_shape_amended_witness :
    (Scatter.render ⟨[0], [0], (0, 0, 0), [], 2, [], [], [], [], [], 4, 4, 50⟩
      (mkPPM 4 4 (255, 255, 255))).1 = none ∧
    (Line.render ⟨[0], [0], (0, 0, 0), 1, [], [], [], [], [], 4, 4, 50⟩
      (mkPPM 4 4 (255, 255, 255))).1 = none :=
  ⟨(C1_shape_amended ⟨[0], [0], (0, 0, 0), [], 2, [], [], [], [], [], 4, 4, 50⟩
      ⟨[0], [0], (0, 0, 0), 1, [], [], [], [], [], 4, 4, 50⟩
      (mkPPM 4 4 (255, 255, 255)) (mkPPM 4 4 (255, 255, 255))).2.1
      (by decide) (by decide),
   (C1_shape_amended ⟨[0], [0], (0, 0, 0), [], 2, [], [], [], [], [], 4, 4, 50⟩
      ⟨[0], [0], (0, 0, 0), 1, [], [], [], [], [], 4, 4, 50⟩
      (mkPPM 4 4 (255, 255, 255)) (mkPPM 4 4 (255, 255, 255))).2.2.2
      (by decide) (by decide)⟩

/-- Claim C2, counterexample: on a 1-by-1 canvas the text save writes differs
from the claimed format, because the code writes a space after every triple,
so a space stands before the row's newline where the claim allows no other
characters. -/
theorem C2_counterexample :
    (mkPPM 1 1 (0, 0, 0)).saveChars ≠ claimSave (mkPPM 1 1 (0, 0, 0)) := by
  decide

/-- Claim C2, amended: save writes exactly the P3 line, the width-height line,
the 255 line, then one line per pixel row holding that row's R G B triples
separated by single spaces, each triple followed by one space, so every
nonempty row line carries exactly one trailing space before its single
newline, and no other characters. -/
theorem C2_save_format_amended (img : PPMImage) : img.saveChars = actualSave img :=
  saveChars_eq_actual img

/-- Claim C3, counterexample: the rasterizer is not symmetric under endpoint
swap: from (0,0) to (2,1) it stamps (1,1), from (2,1) to (0,0) it stamps
(1,0) instead, so the two visited sets differ. -/
theorem C3_counterexample :
    ¬ ∀ p : Int × Int,
      (p ∈ (bresenham 0 0 2 1).getD []) ↔ (p ∈ (bresenham 2 1 0 0).getD []) := by
  intro h
  have h11 := h (1, 1)
  revert h11
  decide

/-- Claim C3, amended: both runs of the rasterizer terminate and each visits
both endpoints, the start as the first stamped pixel and the end as the last
one, the pixel that stops the loop; the full visited sets, however, may
differ at tie-break steps, as the counterexample shows. -/
theorem C3_endpoints_amended (x0 y0 x1 y1 : Int) :
    ∃ l1 l2, bresenham x0 y0 x1 y1 = some l1 ∧ bresenham x1 y1 x0 y0 = some l2 ∧
      l1.head? = some (x0, y0) ∧ l1.getLast? = some (x1, y1) ∧
      l2.head? = some (x1, y1) ∧ l2.getLast? = some (x0, y0) ∧
      (x0, y0) ∈ l1 ∧ (x1, y1) ∈ l1 ∧ (x1, y1) ∈ l2 ∧ (x0, y0) ∈ l2 := by
  obtain ⟨l1, h1, hh1, hl1, hm1⟩ := bresenham_total x0 y0 x1 y1
  obtain ⟨l2, h2, hh2, hl2, hm2⟩ := bresenham_total x1 y1 x0 y0
  exact ⟨l1, l2, h1, h2, hh1, hl1, hh2, hl2,
    List.mem_of_mem_head? (by rw [Option.mem_def, hh1]), hm1,
    List.mem_of_mem_head? (by rw [Option.mem_def, hh2]), hm2⟩

/-- Claim C4: with a nondegenerate data range, the coordinate mapping
margin + int((v - min) / range * extent), with the quotient truncated toward
zero, sends the minimum to exactly the margin and the maximum to exactly
margin + extent. -/
theorem C4_mapper_endpoints (lo hi : ℚ) (e m : Int) (h : lo < hi) :
    scaleTrunc lo lo (rangeOr1 (hi - lo)) e + m = m ∧
    scaleTrunc hi lo (rangeOr1 (hi - lo)) e + m = m + e := by
  have hne : hi - lo ≠ 0 := sub_ne_zero.mpr (ne_of_gt h)
  have hrr : rangeOr1 (hi - lo) = hi - lo := if_neg hne
  constructor
  · rw [hrr]
    unfold scaleTrunc
    rw [sub_self, zero_div, zero_mul]
    unfold ratTrunc
    simp [Rat.num_ofNat, Rat.den_ofNat, Int.zero_tdiv]
  · rw [hrr]
    unfold scaleTrunc
    rw [div_self hne, one_mul]
    unfold ratTrunc
    rw [Rat.num_intCast, Rat.den_intCast]
    simp only [Nat.cast_one, Int.tdiv_one]
    omega

/-- Claim C4, witness at min 0, max 2, extent 300, margin 50. -/
theorem C4_mapper_endpoints_witness :
    scaleTrunc 0 0 (rangeOr1 (2 - 0)) 300 + 50 = 50 ∧
    scaleTrunc 2 0 (rangeOr1 (2 - 0)) 300 + 50 = 50 + 300 :=
  C4_mapper_endpoints 0 2 300 50 (by norm_num)

/-- Claim C5: on a well formed canvas, an in-bounds set_pixel makes exactly the
addressed pixel hold the written color and leaves every other position reading
as before, while any out-of-range call, negative coordinates included, leaves
the whole buffer untouched (and, being total, raises nothing). -/
theorem C5_set_pixel_frame (img : PPMImage) (hwf : img.WF) (x y : Int) (c : Color) :
    (0 ≤ x ∧ x < img.width ∧ 0 ≤ y ∧ y < img.height →
      (img.set_pixel x y c).getPixel x y = some c ∧
      ∀ i j : Int, ¬(i = x ∧ j = y) →
        (img.set_pixel x y c).getPixel i j = img.getPixel i j) ∧
    (¬(0 ≤ x ∧ x < img.width ∧ 0 ≤ y ∧ y < img.height) →
      img.set_pixel x y c = img) := by
  constructor
  · intro hb
    constructor
    · rw [getPixel_set_pixel img hwf,
        if_pos ⟨rfl, rfl, hb.1, hb.2.1, hb.2.2.1, hb.2.2.2⟩]
    · intro i j hij
      rw [getPixel_set_pixel img hwf, if_neg (fun h => hij ⟨h.1, h.2.1⟩)]
  · intro hb
    unfold PPMImage.set_pixel
    rw [if_neg hb]

/-- Claim C5, witness on a 3-by-3 canvas: an in-bounds write at (1, 2) and an
out-of-bounds write at (-1, 0). -/
theorem C5_set_pixel_frame_witness :
    ((mkPPM 3 3 (255, 255, 255)).set_pixel 1 2 (0, 0, 0)).getPixel 1 2 =
      some (0, 0, 0) ∧
    (mkPPM 3 3 (255, 255, 255)).set_pixel (-1) 0 (0, 0, 0) =
      mkPPM 3 3 (255, 255, 255) :=
  ⟨((C5_set_pixel_frame (mkPPM 3 3 (255, 255, 255)) (by decide) 1 2 (0, 0, 0)).1
      (by decide)).1,
   (C5_set_pixel_frame (mkPPM 3 3 (255, 255, 255)) (by decide) (-1) 0 (0, 0, 0)).2
      (by decide)⟩

/-- Claim C6: when the full square of radius r around (x, y) lies inside the
canvas, draw_dot paints exactly the (2r+1)-by-(2r+1) square with the color
and leaves every pixel outside the square reading as before. -/
theorem C6_draw_dot_square (img : PPMImage) (hwf : img.WF) (x y r : Int)
    (c : Color) (hr : 0 ≤ r) (h1 : 0 ≤ x - r) (h2 : x + r < img.width)
    (h3 : 0 ≤ y - r) (h4 : y + r < img.height) (i j : Int) :
    (img.draw_dot x y r c).getPixel i j =
      if x - r ≤ i ∧ i ≤ x + r ∧ y - r ≤ j ∧ j ≤ y + r then some c
      else img.getPixel i j := by
  rw [draw_dot_eq_applyWrites, getPixel_applyWrites img hwf]
  by_cases hin : x - r ≤ i ∧ i ≤ x + r ∧ y - r ≤ j ∧ j ≤ y + r
  · rw [if_pos hin]
    have hmemw : (((i, j), c) : PixWrite) ∈ (dotWrites x y r c).reverse := by
      rw [List.mem_reverse, mem_dotWrites]
      refine ⟨i - x, j - y, by omega, by omega, by omega, by omega, ?_⟩
      rw [show x + (i - x) = i from by ring, show y + (j - y) = j from by ring]
    have hhit : hitB img.width img.height i j (((i, j), c) : PixWrite) = true := by
      unfold hitB
      rw [decide_eq_true_iff]
      show i = i ∧ j = j ∧ 0 ≤ i ∧ i < img.width ∧ 0 ≤ j ∧ j < img.height
      exact ⟨rfl, rfl, by omega, by omega, by omega, by omega⟩
    cases hf : (dotWrites x y r c).reverse.find? (hitB img.width img.height i j) with
    | none =>
        rw [List.find?_eq_none] at hf
        exact absurd hhit (hf _ hmemw)
    | some w =>
        have hmem := List.mem_of_find?_eq_some hf
        rw [List.mem_reverse, mem_dotWrites] at hmem
        obtain ⟨dx, dy, _, _, _, _, rfl⟩ := hmem
        rfl
  · rw [if_neg hin]
    have hnone :
        (dotWrites x y r c).reverse.find? (hitB img.width img.height i j) = none := by
      rw [List.find?_eq_none]
      intro w hw
      rw [List.mem_reverse, mem_dotWrites] at hw
      obtain ⟨dx, dy, hd1, hd2, hd3, hd4, rfl⟩ := hw
      intro hcon
      unfold hitB at hcon
      rw [decide_eq_true_iff] at hcon
      obtain ⟨e1, e2, _⟩ := hcon
      have e1' : x + dx = i := e1
      have e2' : y + dy = j := e2
      exact hin ⟨by omega, by omega, by omega, by omega⟩
    rw [hnone]

/-- Claim C6, witness: a radius-1 dot at (2, 2) of a 5-by-5 canvas, read at
the square pixel (3, 2). -/
theorem C6_draw_dot_square_witness :
    ((mkPPM 5 5 (255, 255, 255)).draw_dot 2 2 1 (0, 0, 0)).getPixel 3 2 =
      if 2 - 1 ≤ (3 : Int) ∧ (3 : Int) ≤ 2 + 1 ∧ 2 - 1 ≤ (2 : Int) ∧ (2 : Int) ≤ 2 + 1
      then some (0, 0, 0)
      else (mkPPM 5 5 (255, 255, 255)).getPixel 3 2 :=
  C6_draw_dot_square (mkPPM 5 5 (255, 255, 255)) (by decide) 2 2 1 (0, 0, 0)
    (by decide) (by decide) (by decide) (by decide) (by decide) 3 2

/-- Claim C7: when the two series differ in length, render raises the
shape-mismatch error and returns the canvas exactly as it was handed in: the
length validation runs before any drawing for both composers. -/
theorem C7_no_partial_drawing (s : Scatter) (li : Line) (img img' : PPMImage)
    (hs : s.x_data.length ≠ s.y_data.length)
    (hl : li.x_data.length ≠ li.y_data.length) :
    s.render img = (some RenderErr.shapeMismatch, img) ∧
    li.render img' = (some RenderErr.shapeMismatch, img') := by
  constructor
  · unfold Scatter.render
    rw [if_pos hs]
  · unfold Line.render
    rw [if_pos hl]

/-- Claim C7, witness at a concrete mismatched input pair. -/
theorem C7_no_partial_drawing_witness :
    Scatter.render ⟨[0], [], (0, 0, 0), [], 2, [], [], [], [], [], 4, 4, 50⟩
      (mkPPM 4 4 (255, 255, 255)) =
      (some RenderErr.shapeMismatch, mkPPM 4 4 (255, 255, 255)) ∧
    Line.render ⟨[0], [], (0, 0, 0), 1, [], [], [], [], [], 4, 4, 50⟩
      (mkPPM 4 4 (255, 255, 255)) =
      (some RenderErr.shapeMismatch, mkPPM 4 4 (255, 255, 255)) :=
  C7_no_partial_drawing ⟨[0], [], (0, 0, 0), [], 2, [], [], [], [], [], 4, 4, 50⟩
    ⟨[0], [], (0, 0, 0), 1, [], [], [], [], [], 4, 4, 50⟩
    (mkPPM 4 4 (255, 255, 255)) (mkPPM 4 4 (255, 255, 255))
    (by decide) (by decide)

/-- Claim C8: encoding a well formed canvas with positive dimensions and
channel values in the 0..255 range and parsing the produced text back
recovers exactly the width, the height and every per-pixel value. -/
theorem C8_save_parse_roundtrip (img : PPMImage) (hwf : img.WF)
    (hw : 0 < img.width) (hh : 0 < img.height)
    (hchan : ∀ row ∈ img.pixels, ∀ c ∈ row,
      (0 ≤ c.1 ∧ c.1 ≤ 255) ∧ (0 ≤ c.2.1 ∧ c.2.1 ≤ 255) ∧
        (0 ≤ c.2.2 ∧ c.2.2 ≤ 255)) :
    parsePPM img.saveChars = some (img.width, img.height, img.pixels) :=
  parse_save img hwf hw hh
    (fun row hrow c hc =>
      ⟨(hchan row hrow c hc).1.1, (hchan row hrow c hc).2.1.1,
        (hchan row hrow c hc).2.2.1⟩)

/-- Claim C8, witness on a concrete 2-by-2 canvas. -/
theorem C8_save_parse_roundtrip_witness :
    parsePPM (mkPPM 2 2 (7, 8, 9)).saveChars =
      some ((mkPPM 2 2 (7, 8, 9)).width, (mkPPM 2 2 (7, 8, 9)).height,
        (mkPPM 2 2 (7, 8, 9)).pixels) :=
  C8_save_parse_roundtrip (mkPPM 2 2 (7, 8, 9)) (by decide) (by decide) (by decide)
    (by decide)

/-- Claim C9: the Bresenham loop of Line._draw_line terminates for every pair
of integer endpoints: the fuelled loop reaches the break at (x1, y1) within
the |dx| + |dy| + 1 iteration budget and yields its visited-pixel list. -/
theorem C9_bresenham_terminates (x0 y0 x1 y1 : Int) :
    ∃ l, bresenham x0 y0 x1 y1 = some l ∧ (x1, y1) ∈ l := by
  obtain ⟨l, hl, _, _, hm⟩ := bresenham_total x0 y0 x1 y1
  exact ⟨l, hl, hm⟩

/-- Claim C10: for equal-length nonempty series, rendering twice on the same
composer leaves the pixel buffer identical to rendering once: every drawing
step writes colors computed only from the immutable inputs, never from the
canvas, for both composers. -/
theorem C10_render_idempotent (s : Scatter) (li : Line) (img img' : PPMImage)
    (hwf : img.WF) (hwf' : img'.WF)
    (hs : s.x_data.length = s.y_data.length) (hsne : s.x_data ≠ [])
    (hl : li.x_data.length = li.y_data.length) (hlne : li.x_data ≠ []) :
    (s.render ((s.render img).2)).2 = (s.render img).2 ∧
    (li.render ((li.render img').2)).2 = (li.render img').2 := by
  constructor
  · rw [scatter_render_ok s img hs hsne]
    show (s.render (s.draw_phase img)).2 = s.draw_phase img
    rw [scatter_render_ok s (s.draw_phase img) hs hsne]
    exact obliv_idem (obliv_scatter_draw_phase s) img hwf
  · rw [line_render_ok li img' hl hlne]
    show (li.render (li.draw_phase img')).2 = li.draw_phase img'
    rw [line_render_ok li (li.draw_phase img') hl hlne]
    exact obliv_idem (obliv_line_draw_phase li) img' hwf'

/-- Claim C10, witness at concrete one-point series on a 4-by-4 canvas. -/
theorem C10_render_idempotent_witness :
    (Scatter.render ⟨[0], [0], (0, 0, 0), [], 2, [], [], [], [], [], 4, 4, 50⟩
      ((Scatter.render ⟨[0], [0], (0, 0, 0), [], 2, [], [], [], [], [], 4, 4, 50⟩
        (mkPPM 4 4 (255, 255, 255))).2)).2 =
      (Scatter.render ⟨[0], [0], (0, 0, 0), [], 2, [], [], [], [], [], 4, 4, 50⟩
        (mkPPM 4 4 (255, 255, 255))).2 ∧
    (Line.render ⟨[0], [0], (0, 0, 0), 1, [], [], [], [], [], 4, 4, 50⟩
      ((Line.render ⟨[0], [0], (0, 0, 0), 1, [], [], [], [], [], 4, 4, 50⟩
        (mkPPM 4 4 (255, 255, 255))).2)).2 =
      (Line.render ⟨[0], [0], (0, 0, 0), 1, [], [], [], [], [], 4, 4, 50⟩
        (mkPPM 4 4 (255, 255, 255))).2 :=
  C10_render_idempotent ⟨[0], [0], (0, 0, 0), [], 2, [], [], [], [], [], 4, 4, 50⟩
    ⟨[0], [0], (0, 0, 0), 1, [], [], [], [], [], 4, 4, 50⟩
    (mkPPM 4 4 (255, 255, 255)) (mkPPM 4 4 (255, 255, 255))
    (by decide) (by decide) (by decide) (by decide) (by decide) (by decide)
